import Mathlib

/-!
Shallow embedding of the room-lifecycle / membership-index core of
`src/server.js` (ephemeral socket chat server, second revision of the file).

Modelling conventions:
* JS `Map` objects (`rooms`, `userRooms`) are association lists with
  insertion order preserved; `Map.set` replaces in place, `Map.delete`
  removes the key.
* JS `Set` objects (`room.users`, `userRooms.get(u)`) are duplicate-free
  lists in insertion order; `Set.add` appends when absent, `Set.delete`
  filters the element out.
* `Date.now()` is an explicit `Nat` (milliseconds) argument `now`.
* The random inputs (`generateRoomId()` result, the `Math.random`
  suffix of a message id) are explicit parameters of the handlers.
* Each socket handler returns the successor state paired with the list
  of emitted events, each tagged with its delivery target
  (`socket.emit` = sender, `io.to(userId)` = user channel,
  `io.to(roomId)` = room channel, `io.emit` = all clients).
-/

namespace Zvon

abbrev UserId := String
abbrev RoomId := String

/-- A stored chat message (second revision adds the `id` field). -/
structure Message where
  id : String
  userId : UserId
  message : String
  timestamp : Nat
deriving DecidableEq

/-- A live room: `{ id, users, messages, createdAt, expiresAt, timer }`.
The `timer` handle is represented by `expiresAt` plus the explicit
delete step of the transition system. -/
structure Room where
  id : RoomId
  users : List UserId
  messages : List Message
  createdAt : Nat
  expiresAt : Nat
deriving DecidableEq

/-- Association-list lookup, mirroring `Map.get` / `Map.has`. -/
def alGet {β : Type} : List (String × β) → String → Option β
  | [], _ => none
  | (a, b) :: rest, k => if a = k then some b else alGet rest k

/-- Association-list update, mirroring `Map.set` (replace in place,
append new keys at the end). -/
def alSet {β : Type} : List (String × β) → String → β → List (String × β)
  | [], k, v => [(k, v)]
  | (a, b) :: rest, k, v =>
    if a = k then (k, v) :: rest else (a, b) :: alSet rest k v

/-- Association-list removal, mirroring `Map.delete` (keys are unique). -/
def alErase {β : Type} (m : List (String × β)) (k : String) : List (String × β) :=
  m.filter (fun p => p.1 != k)

/-- `Set.add`: append when absent. -/
def jsSetAdd (s : List String) (x : String) : List String :=
  if x ∈ s then s else s ++ [x]

/-- `new Set(array)`: deduplicate keeping first occurrences. -/
def jsSetOf (l : List String) : List String := l.foldl jsSetAdd []

/-- `Set.delete`: remove the element. -/
def jsSetDelete (s : List String) (x : String) : List String :=
  s.filter (fun y => y != x)

/-- The whole mutable server state: `rooms` and `userRooms`. -/
structure ServerState where
  rooms : List (RoomId × Room)
  userRooms : List (UserId × List RoomId)
deriving DecidableEq

def initialState : ServerState := ⟨[], []⟩

/-- The membership-index entry of a user (`userRooms.get(u)`, empty when
the user has no entry). -/
def memberOf (s : ServerState) (u : UserId) : List RoomId :=
  (alGet s.userRooms u).getD []

/-- `ROOM_EXPIRATION_MINUTES = 5`. -/
def ROOM_EXPIRATION_MINUTES : Nat := 5

/-- The room TTL in milliseconds, `ROOM_EXPIRATION_MINUTES * 60 * 1000`. -/
def ROOM_EXPIRATION_MS : Nat := ROOM_EXPIRATION_MINUTES * 60 * 1000

/-- Delivery target of an emitted event. -/
inductive Target where
  | sender
  | user (u : UserId)
  | room (r : RoomId)
  | all
deriving DecidableEq

/-- The outbound events of the server. -/
inductive SEvent where
  | error (msg : String)
  | room_created (id : RoomId) (userCount : Nat)
  | room_joined (id : RoomId) (userCount : Nat)
  | room_deleted (id : RoomId)
  | new_message (id : String) (roomId : RoomId) (userId : UserId) (message : String)
  | room_expiration (minutesLeft : Int)
  | room_messages (roomId : RoomId) (messages : List Message)
  | user_rooms (data : List (RoomId × Nat))
deriving DecidableEq

abbrev Output := Target × SEvent

/-- One `userIds.forEach` iteration of `createRoom`: ensure the user has
an index entry and add the room id to it. -/
def urAdd1 (m : List (UserId × List RoomId)) (u : UserId) (roomId : RoomId) :
    List (UserId × List RoomId) :=
  alSet m u (jsSetAdd ((alGet m u).getD []) roomId)

/-- The full `userIds.forEach` loop of `createRoom`. -/
def urAddAll (m : List (UserId × List RoomId)) (userIds : List UserId)
    (roomId : RoomId) : List (UserId × List RoomId) :=
  userIds.foldl (fun acc u => urAdd1 acc u roomId) m

/-- `createRoom(roomId, userIds)`: build the room record, register it,
and index it for every listed user.  Arming the deletion timer is
represented by `expiresAt` (the timer's firing is the delete step). -/
def createRoom (s : ServerState) (roomId : RoomId) (userIds : List UserId)
    (now : Nat) : ServerState × Room :=
  let room : Room :=
    { id := roomId
      users := jsSetOf userIds
      messages := []
      createdAt := now
      expiresAt := now + ROOM_EXPIRATION_MS }
  (⟨alSet s.rooms roomId room, urAddAll s.userRooms userIds roomId⟩, room)

/-- One `room.users.forEach` iteration of `deleteRoom`: drop the room id
from the user's index entry, pruning the entry when it empties. -/
def urDel1 (m : List (UserId × List RoomId)) (u : UserId) (roomId : RoomId) :
    List (UserId × List RoomId) :=
  match alGet m u with
  | none => m
  | some st =>
    let st1 := jsSetDelete st roomId
    if st1 = [] then alErase m u else alSet m u st1

/-- The full `room.users.forEach` loop of `deleteRoom`. -/
def urDelAll (m : List (UserId × List RoomId)) (userIds : List UserId)
    (roomId : RoomId) : List (UserId × List RoomId) :=
  userIds.foldl (fun acc u => urDel1 acc u roomId) m

/-- `deleteRoom(roomId)` (second revision): no-op when absent; otherwise
emit `room_deleted` to the room channel (`io.to(roomId)`), unindex every
member, and drop the room from the registry. -/
def deleteRoom (s : ServerState) (roomId : RoomId) : ServerState × List Output :=
  match alGet s.rooms roomId with
  | none => (s, [])
  | some room =>
    (⟨alErase s.rooms roomId, urDelAll s.userRooms room.users roomId⟩,
     [(Target.room roomId, SEvent.room_deleted roomId)])

/-- `resetRoomTimer(roomId)`: when the room is live, set
`expiresAt = Date.now() + ROOM_EXPIRATION_MINUTES * 60 * 1000` and rearm
the single deletion timer. -/
def resetRoomTimer (s : ServerState) (roomId : RoomId) (now : Nat) : ServerState :=
  match alGet s.rooms roomId with
  | none => s
  | some room =>
    ⟨alSet s.rooms roomId { room with expiresAt := now + ROOM_EXPIRATION_MS },
     s.userRooms⟩

/-- Mathematical ceiling division (`Math.ceil(a / b)` for an integer
numerator and positive integer denominator), via floor division. -/
def jsCeilDiv (a b : Int) : Int := -((-a).fdiv b)

/-- The emitted countdown value
`Math.max(0, Math.ceil((room.expiresAt - Date.now()) / 60000))`. -/
def minutesLeftOf (expiresAt now : Nat) : Int :=
  max 0 (jsCeilDiv ((expiresAt : Int) - (now : Int)) 60000)

/-- Payload of `sendUserRooms(userId)`: the indexed rooms with their
member counts.  (The source would throw on a dangling index entry; the
`getD 0` default is unreachable under the membership invariant.) -/
def userRoomsData (s : ServerState) (u : UserId) : List (RoomId × Nat) :=
  (memberOf s u).map (fun rid =>
    (rid, ((alGet s.rooms rid).map (fun r => r.users.length)).getD 0))

/-- The `create_room` handler: reject a live id with an error to the
sender, otherwise create and announce to every listed user's channel. -/
def handleCreateRoom (s : ServerState) (roomId : RoomId) (userIds : List UserId)
    (now : Nat) : ServerState × List Output :=
  if (alGet s.rooms roomId).isSome then
    (s, [(Target.sender, SEvent.error "Комната с таким ID уже существует")])
  else
    let s1 := (createRoom s roomId userIds now).1
    let room := (createRoom s roomId userIds now).2
    (s1, userIds.map (fun u => (Target.user u, SEvent.room_created roomId room.users.length)))

/-- The `join_room` handler: error to the sender on an unknown id;
otherwise add the user to the room and the index when absent, rearm the
timer, and reply with `room_joined`, `room_expiration`, `user_rooms`. -/
def handleJoinRoom (s : ServerState) (roomId : RoomId) (userId : UserId)
    (now : Nat) : ServerState × List Output :=
  match alGet s.rooms roomId with
  | none => (s, [(Target.sender, SEvent.error "Комната не найдена")])
  | some room =>
    let s1 :=
      if userId ∈ room.users then s
      else ⟨alSet s.rooms roomId { room with users := room.users ++ [userId] },
            urAdd1 s.userRooms userId roomId⟩
    let s2 := resetRoomTimer s1 roomId now
    let userCount := ((alGet s2.rooms roomId).map (fun r => r.users.length)).getD 0
    let minutesLeft := ((alGet s2.rooms roomId).map
      (fun r => minutesLeftOf r.expiresAt now)).getD 0
    (s2, [(Target.sender, SEvent.room_joined roomId userCount),
          (Target.sender, SEvent.room_expiration minutesLeft),
          (Target.sender, SEvent.user_rooms (userRoomsData s2 userId))])

/-- The linear scan of `join_by_user` over the candidate room ids:
return the first live room with exactly two members including both
users. -/
def twoPartyScan (s : ServerState) (currentUserId userId : UserId) :
    List RoomId → Option Room
  | [] => none
  | rid :: rest =>
    match alGet s.rooms rid with
    | some room =>
      if room.users.length = 2 ∧ currentUserId ∈ room.users ∧ userId ∈ room.users then
        some room
      else twoPartyScan s currentUserId userId rest
    | none => twoPartyScan s currentUserId userId rest

/-- `commonRooms`: the current user's indexed rooms filtered to those
also indexed for the other user. -/
def commonRoomsOf (s : ServerState) (currentUserId userId : UserId) : List RoomId :=
  (memberOf s currentUserId).filter (fun rid => decide (rid ∈ memberOf s userId))

/-- The existing-two-party-room search of `join_by_user` (including the
redundant `userRooms.has` guards of the source). -/
def findTwoPartyRoom (s : ServerState) (currentUserId userId : UserId) : Option Room :=
  if (alGet s.userRooms currentUserId).isSome ∧ (alGet s.userRooms userId).isSome then
    twoPartyScan s currentUserId userId (commonRoomsOf s currentUserId userId)
  else none

/-- The `join_by_user` handler.  `genId` is the value returned by
`generateRoomId()` (random, hence a parameter).  Note the implicit
create path calls `createRoom` directly, with no liveness check on
`genId`. -/
def handleJoinByUser (s : ServerState) (userId currentUserId : UserId)
    (genId : RoomId) (now : Nat) : ServerState × List Output :=
  match findTwoPartyRoom s currentUserId userId with
  | some room =>
    (s, [(Target.sender, SEvent.room_joined room.id room.users.length)])
  | none =>
    let s1 := (createRoom s genId [currentUserId, userId] now).1
    (s1, [(Target.sender, SEvent.room_created genId 2),
          (Target.user userId, SEvent.room_created genId 2)])

/-- Decimal digit character. -/
def digitChar (d : Nat) : Char := Char.ofNat (48 + d)

/-- Fuel-driven decimal expansion (most significant digit first). -/
def natCharsAux : Nat → Nat → List Char
  | 0, _ => []
  | fuel + 1, n =>
    if n < 10 then [digitChar n]
    else natCharsAux fuel (n / 10) ++ [digitChar (n % 10)]

/-- Decimal digits of a natural number (JS number-to-string for the
nonnegative integers produced by `Date.now()`). -/
def natChars (n : Nat) : List Char := natCharsAux (n + 1) n

/-- JS string conversion of a nonnegative integer. -/
def natToString (n : Nat) : String := String.mk (natChars n)

/-- Parse a digit list back into a number (proof device). -/
def natVal (l : List Char) : Nat :=
  l.foldl (fun acc c => acc * 10 + (c.toNat - 48)) 0

/-- The message-id generator
`Date.now() + '-' + Math.random().toString(36).substr(2, 9)`;
the random suffix is a parameter. -/
def mkMessageId (now : Nat) (suffix : String) : String :=
  natToString now ++ "-" ++ suffix

/-- The `send_message` handler (second revision, with message ids):
errors to the sender for an unknown room or a non-member, otherwise
append the message, rearm the timer, and emit `new_message` and
`room_expiration` to the room channel. -/
def handleSendMessage (s : ServerState) (roomId : RoomId) (userId : UserId)
    (message : String) (now : Nat) (suffix : String) : ServerState × List Output :=
  match alGet s.rooms roomId with
  | none => (s, [(Target.sender, SEvent.error "Комната не найдена")])
  | some room =>
    if userId ∈ room.users then
      let messageId := mkMessageId now suffix
      let room1 := { room with
        messages := room.messages ++ [⟨messageId, userId, message, now⟩] }
      let s1 : ServerState := ⟨alSet s.rooms roomId room1, s.userRooms⟩
      let s2 := resetRoomTimer s1 roomId now
      let minutesLeft := ((alGet s2.rooms roomId).map
        (fun r => minutesLeftOf r.expiresAt now)).getD 0
      (s2, [(Target.room roomId, SEvent.new_message messageId roomId userId message),
            (Target.room roomId, SEvent.room_expiration minutesLeft)])
    else (s, [(Target.sender, SEvent.error "Вы не участник комнаты")])

/-- The `get_messages` handler: reply only when the room is live
(unknown ids are silently ignored). -/
def handleGetMessages (s : ServerState) (roomId : RoomId) : ServerState × List Output :=
  match alGet s.rooms roomId with
  | none => (s, [])
  | some room => (s, [(Target.sender, SEvent.room_messages roomId room.messages)])

/-- The `get_room_expiration` handler: reply only when the room is live
(unknown ids are silently ignored). -/
def handleGetRoomExpiration (s : ServerState) (roomId : RoomId) (now : Nat) :
    ServerState × List Output :=
  match alGet s.rooms roomId with
  | none => (s, [])
  | some room =>
    (s, [(Target.sender, SEvent.room_expiration (minutesLeftOf room.expiresAt now))])

/-- The bidirectional membership property: a user is in a live room's
member set exactly when the room id is in the user's index entry. -/
def BidirectionalIndex (s : ServerState) : Prop :=
  ∀ rid room u, alGet s.rooms rid = some room →
    (u ∈ room.users ↔ rid ∈ memberOf s u)

/-- No index entry points at a dead room. -/
def NoDanglingIndex (s : ServerState) : Prop :=
  ∀ u rid, rid ∈ memberOf s u → (alGet s.rooms rid).isSome = true

/-- The full membership invariant of the spec. -/
def MembershipInvariant (s : ServerState) : Prop :=
  BidirectionalIndex s ∧ NoDanglingIndex s

/-- States reachable from the empty server by the room-lifecycle
operations: guarded create, join, timer/explicit delete, send, and
join-by-user whose generated id does not collide with a live room (the
colliding implicit create overwrites the live room and breaks the
membership invariant; that slip is treated separately). -/
inductive Reachable : ServerState → Prop where
  | init : Reachable initialState
  | createStep (s : ServerState) (roomId : RoomId) (userIds : List UserId) (now : Nat) :
      Reachable s → Reachable (handleCreateRoom s roomId userIds now).1
  | joinStep (s : ServerState) (roomId : RoomId) (userId : UserId) (now : Nat) :
      Reachable s → Reachable (handleJoinRoom s roomId userId now).1
  | deleteStep (s : ServerState) (roomId : RoomId) :
      Reachable s → Reachable (deleteRoom s roomId).1
  | sendStep (s : ServerState) (roomId : RoomId) (userId : UserId)
      (message : String) (now : Nat) (suffix : String) :
      Reachable s → Reachable (handleSendMessage s roomId userId message now suffix).1
  | joinByUserStep (s : ServerState) (userId currentUserId : UserId)
      (genId : RoomId) (now : Nat) :
      alGet s.rooms genId = none →
      Reachable s → Reachable (handleJoinByUser s userId currentUserId genId now).1

/-- Sample state: the result of creating room `AB12` for `u1`, `u2`. -/
def sampleState : ServerState := (handleCreateRoom initialState "AB12" ["u1", "u2"] 0).1

/-- Second sample state: the result of creating room `CD34` for `u3`. -/
def sampleState2 : ServerState := (handleCreateRoom initialState "CD34" ["u3"] 10).1

theorem alGet_alSet {β : Type} (m : List (String × β)) (k k' : String) (v : β) :
    alGet (alSet m k v) k' = if k = k' then some v else alGet m k' := by
  induction m with
  | nil =>
    by_cases h : k = k' <;> simp [alSet, alGet, h]
  | cons p rest ih =>
    obtain ⟨a, b⟩ := p
    by_cases h1 : a = k
    · subst h1
      by_cases h2 : a = k' <;> simp [alSet, alGet, h2]
    · by_cases h2 : a = k'
      · subst h2
        have hkk : ¬ k = a := fun h => h1 h.symm
        simp [alSet, alGet, h1, hkk]
      · simp [alSet, alGet, h1, h2, ih]

theorem alGet_alErase {β : Type} (m : List (String × β)) (k k' : String) :
    alGet (alErase m k) k' = if k = k' then none else alGet m k' := by
  induction m with
  | nil => by_cases h : k = k' <;> simp [alErase, alGet, h]
  | cons p rest ih =>
    obtain ⟨a, b⟩ := p
    by_cases h1 : a = k
    · subst h1
      by_cases h2 : a = k'
      · subst h2
        simp [alErase, List.filter_cons, alGet] at ih ⊢
        simpa using ih
      · simp [alErase, List.filter_cons, alGet, h2] at ih ⊢
        simpa [h2] using ih
    · by_cases h2 : a = k'
      · subst h2
        have hkk : ¬ k = a := fun h => h1 h.symm
        simp [alErase, List.filter_cons, alGet, h1, hkk]
      · simp [alErase, List.filter_cons, alGet, h1, h2] at ih ⊢
        exact ih

theorem mem_jsSetAdd (s : List String) (x y : String) :
    x ∈ jsSetAdd s y ↔ x ∈ s ∨ x = y := by
  by_cases h : y ∈ s
  · simp only [jsSetAdd, if_pos h]
    constructor
    · exact Or.inl
    · rintro (hx | rfl)
      · exact hx
      · exact h
  · simp [jsSetAdd, if_neg h]

theorem jsSetAdd_idem (s : List String) (y : String) :
    jsSetAdd (jsSetAdd s y) y = jsSetAdd s y := by
  have h : y ∈ jsSetAdd s y := (mem_jsSetAdd s y y).mpr (Or.inr rfl)
  show (if y ∈ jsSetAdd s y then jsSetAdd s y else jsSetAdd s y ++ [y]) = jsSetAdd s y
  rw [if_pos h]

theorem mem_foldl_jsSetAdd (l : List String) :
    ∀ (acc : List String) (x : String),
      x ∈ l.foldl jsSetAdd acc ↔ x ∈ acc ∨ x ∈ l := by
  induction l with
  | nil => intro acc x; simp
  | cons a l ih =>
    intro acc x
    simp only [List.foldl_cons, ih, mem_jsSetAdd, List.mem_cons]
    tauto

theorem mem_jsSetOf (l : List String) (x : String) :
    x ∈ jsSetOf l ↔ x ∈ l := by
  simp [jsSetOf, mem_foldl_jsSetAdd]

theorem mem_jsSetDelete (s : List String) (x y : String) :
    y ∈ jsSetDelete s x ↔ y ∈ s ∧ y ≠ x := by
  simp [jsSetDelete, List.mem_filter]

theorem jsSetDelete_idem (s : List String) (x : String) :
    jsSetDelete (jsSetDelete s x) x = jsSetDelete s x := by
  simp [jsSetDelete, List.filter_filter]

theorem alGet_urAdd1 (m : List (UserId × List RoomId)) (v : UserId)
    (rid : RoomId) (u : UserId) :
    alGet (urAdd1 m v rid) u =
      if v = u then some (jsSetAdd ((alGet m u).getD []) rid) else alGet m u := by
  unfold urAdd1
  rw [alGet_alSet]
  by_cases h : v = u <;> simp [h]

theorem alGet_urAddAll (l : List UserId) :
    ∀ (m : List (UserId × List RoomId)) (rid : RoomId) (u : UserId),
      alGet (urAddAll m l rid) u =
        if u ∈ l then some (jsSetAdd ((alGet m u).getD []) rid) else alGet m u := by
  induction l with
  | nil => intro m rid u; simp [urAddAll]
  | cons v l ih =>
    intro m rid u
    have step : urAddAll m (v :: l) rid = urAddAll (urAdd1 m v rid) l rid := rfl
    rw [step, ih]
    by_cases hu : u ∈ l
    · rw [if_pos hu, if_pos (List.mem_cons_of_mem v hu)]
      rw [alGet_urAdd1]
      by_cases hv : v = u
      · rw [if_pos hv]
        simp [jsSetAdd_idem]
      · rw [if_neg hv]
    · rw [if_neg hu, alGet_urAdd1]
      by_cases hv : v = u
      · rw [if_pos hv, if_pos (List.mem_cons.mpr (Or.inl hv.symm))]
      · rw [if_neg hv, if_neg (fun hmem => by
          rcases List.mem_cons.mp hmem with h | h
          · exact hv h.symm
          · exact hu h)]

theorem memberOf_urAddAll (U : List (UserId × List RoomId))
    (R : List (RoomId × Room)) (l : List UserId) (rid : RoomId) (u : UserId) :
    memberOf ⟨R, urAddAll U l rid⟩ u =
      if u ∈ l then jsSetAdd (memberOf ⟨R, U⟩ u) rid else memberOf ⟨R, U⟩ u := by
  unfold memberOf
  simp only [alGet_urAddAll]
  by_cases h : u ∈ l <;> simp [h]

theorem memberOf_urDel1 (U : List (UserId × List RoomId))
    (R : List (RoomId × Room)) (v : UserId) (rid : RoomId) (u : UserId) :
    memberOf ⟨R, urDel1 U v rid⟩ u =
      if v = u then jsSetDelete (memberOf ⟨R, U⟩ u) rid else memberOf ⟨R, U⟩ u := by
  unfold memberOf urDel1
  cases hv : alGet U v with
  | none =>
    by_cases h : v = u
    · subst h; simp [hv, jsSetDelete]
    · simp [h]
  | some st =>
    show (alGet (if jsSetDelete st rid = [] then alErase U v
                 else alSet U v (jsSetDelete st rid)) u).getD [] = _
    by_cases hemp : jsSetDelete st rid = []
    · rw [if_pos hemp, alGet_alErase]
      by_cases h : v = u
      · subst h; simp [hv, hemp]
      · simp [h]
    · rw [if_neg hemp, alGet_alSet]
      by_cases h : v = u
      · subst h; simp [hv]
      · simp [h]

theorem memberOf_urDelAll (l : List UserId) :
    ∀ (U : List (UserId × List RoomId)) (R : List (RoomId × Room))
      (rid : RoomId) (u : UserId),
      memberOf ⟨R, urDelAll U l rid⟩ u =
        if u ∈ l then jsSetDelete (memberOf ⟨R, U⟩ u) rid else memberOf ⟨R, U⟩ u := by
  induction l with
  | nil => intro U R rid u; simp [urDelAll, memberOf]
  | cons v l ih =>
    intro U R rid u
    have step : urDelAll U (v :: l) rid = urDelAll (urDel1 U v rid) l rid := rfl
    rw [step, ih]
    by_cases hu : u ∈ l
    · rw [if_pos hu, if_pos (List.mem_cons_of_mem v hu)]
      rw [memberOf_urDel1]
      by_cases hv : v = u
      · rw [if_pos hv, jsSetDelete_idem]
      · rw [if_neg hv]
    · rw [if_neg hu, memberOf_urDel1]
      by_cases hv : v = u
      · rw [if_pos hv, if_pos (List.mem_cons.mpr (Or.inl hv.symm))]
      · rw [if_neg hv, if_neg (fun hmem => by
          rcases List.mem_cons.mp hmem with h | h
          · exact hv h.symm
          · exact hu h)]

theorem memberOf_urAdd1 (U : List (UserId × List RoomId))
    (R : List (RoomId × Room)) (v : UserId) (rid : RoomId) (u : UserId) :
    memberOf ⟨R, urAdd1 U v rid⟩ u =
      if v = u then jsSetAdd (memberOf ⟨R, U⟩ u) rid else memberOf ⟨R, U⟩ u := by
  unfold memberOf
  rw [show (ServerState.mk R (urAdd1 U v rid)).userRooms = urAdd1 U v rid from rfl,
      alGet_urAdd1]
  by_cases h : v = u <;> simp [h]

theorem jsSetOf_pair (a b : String) (h : b ≠ a) : jsSetOf [a, b] = [a, b] := by
  simp [jsSetOf, jsSetAdd, h]

theorem isSome_of_mapUsers_eq {o o' : Option Room}
    (h : o'.map Room.users = o.map Room.users) :
    o.isSome = true → o'.isSome = true := by
  cases o <;> cases o' <;> simp_all

/-- Membership data (per-room member sets and the whole index)
determines the membership invariant. -/
theorem inv_congr (s s' : ServerState)
    (hr : ∀ rid, (alGet s'.rooms rid).map Room.users = (alGet s.rooms rid).map Room.users)
    (hu : ∀ u, memberOf s' u = memberOf s u)
    (h : MembershipInvariant s) : MembershipInvariant s' := by
  obtain ⟨hbi, hnd⟩ := h
  constructor
  · intro rid room u hget
    have := hr rid
    rw [hget] at this
    cases hget0 : alGet s.rooms rid with
    | none => rw [hget0] at this; simp at this
    | some room0 =>
      rw [hget0] at this
      simp only [Option.map_some'] at this
      have husers : room.users = room0.users := by injection this
      rw [hu u, husers]
      exact hbi rid room0 u hget0
  · intro u rid hin
    rw [hu u] at hin
    exact isSome_of_mapUsers_eq (hr rid) (hnd u rid hin)

theorem rooms_resetRoomTimer (s : ServerState) (roomId : RoomId) (now : Nat) (rid : RoomId) :
    (alGet (resetRoomTimer s roomId now).rooms rid).map Room.users =
      (alGet s.rooms rid).map Room.users := by
  unfold resetRoomTimer
  cases hget : alGet s.rooms roomId with
  | none => rfl
  | some room =>
    show (alGet (alSet s.rooms roomId _) rid).map Room.users = _
    rw [alGet_alSet]
    by_cases h : roomId = rid
    · subst h; rw [if_pos rfl, hget]; rfl
    · rw [if_neg h]

theorem userRooms_resetRoomTimer (s : ServerState) (roomId : RoomId) (now : Nat) :
    (resetRoomTimer s roomId now).userRooms = s.userRooms := by
  unfold resetRoomTimer
  cases hget : alGet s.rooms roomId <;> rfl

theorem expiresAt_resetRoomTimer (s : ServerState) (roomId : RoomId) (now : Nat)
    (room : Room) (hget : alGet s.rooms roomId = some room) :
    alGet (resetRoomTimer s roomId now).rooms roomId =
      some { room with expiresAt := now + ROOM_EXPIRATION_MS } := by
  unfold resetRoomTimer
  rw [hget]
  show alGet (alSet s.rooms roomId _) roomId = _
  rw [alGet_alSet, if_pos rfl]

/-- `createRoom` on a fresh id preserves the membership invariant. -/
theorem inv_createRoom (s : ServerState) (roomId : RoomId) (userIds : List UserId)
    (now : Nat) (h : MembershipInvariant s) (habs : alGet s.rooms roomId = none) :
    MembershipInvariant (createRoom s roomId userIds now).1 := by
  obtain ⟨hbi, hnd⟩ := h
  have hroomsEq : (createRoom s roomId userIds now).1.rooms =
      alSet s.rooms roomId (createRoom s roomId userIds now).2 := rfl
  have husersEq : (createRoom s roomId userIds now).2.users = jsSetOf userIds := rfl
  have hmem : ∀ u, memberOf (createRoom s roomId userIds now).1 u =
      if u ∈ userIds then jsSetAdd (memberOf s u) roomId else memberOf s u := by
    intro u
    have heq : (createRoom s roomId userIds now).1 =
        ⟨alSet s.rooms roomId (createRoom s roomId userIds now).2,
          urAddAll s.userRooms userIds roomId⟩ := rfl
    rw [heq, memberOf_urAddAll]
    rfl
  have hfresh : ∀ u, roomId ∉ memberOf s u := by
    intro u hin
    have := hnd u roomId hin
    rw [habs] at this
    simp at this
  constructor
  · intro rid room u hget
    rw [hroomsEq, alGet_alSet] at hget
    rw [hmem u]
    by_cases hr : roomId = rid
    · subst hr
      rw [if_pos rfl] at hget
      have hroom : room = (createRoom s roomId userIds now).2 := by
        injection hget with hh
        exact hh.symm
      subst hroom
      rw [husersEq]
      by_cases hu : u ∈ userIds
      · simp [hu, mem_jsSetAdd, mem_jsSetOf]
      · rw [if_neg hu]
        simp [mem_jsSetOf, hu, hfresh u]
    · rw [if_neg hr] at hget
      have old := hbi rid room u hget
      by_cases hu : u ∈ userIds
      · rw [if_pos hu, old]
        rw [mem_jsSetAdd]
        constructor
        · exact Or.inl
        · rintro (hx | rfl)
          · exact hx
          · exact absurd rfl hr
      · rw [if_neg hu]
        exact old
  · intro u rid hin
    rw [hmem u] at hin
    rw [hroomsEq, alGet_alSet]
    by_cases hr : roomId = rid
    · rw [if_pos hr]; rfl
    · rw [if_neg hr]
      apply hnd u rid
      by_cases hu : u ∈ userIds
      · rw [if_pos hu] at hin
        rcases (mem_jsSetAdd _ _ _).mp hin with hx | hx
        · exact hx
        · exact absurd hx (fun hh => hr hh.symm)
      · rw [if_neg hu] at hin
        exact hin

/-- The membership-adding branch of `join_room` preserves the invariant. -/
theorem inv_joinAdd (s : ServerState) (roomId : RoomId) (room : Room)
    (userId : UserId) (hget : alGet s.rooms roomId = some room)
    (h : MembershipInvariant s) :
    MembershipInvariant
      ⟨alSet s.rooms roomId { room with users := room.users ++ [userId] },
        urAdd1 s.userRooms userId roomId⟩ := by
  obtain ⟨hbi, hnd⟩ := h
  set s' : ServerState :=
    ⟨alSet s.rooms roomId { room with users := room.users ++ [userId] },
      urAdd1 s.userRooms userId roomId⟩ with hs'
  have hmem : ∀ u, memberOf s' u =
      if userId = u then jsSetAdd (memberOf s u) roomId else memberOf s u := by
    intro u
    rw [hs']
    rw [show (ServerState.mk (alSet s.rooms roomId { room with users := room.users ++ [userId] })
          (urAdd1 s.userRooms userId roomId)) =
        (⟨alSet s.rooms roomId { room with users := room.users ++ [userId] },
          urAdd1 s.userRooms userId roomId⟩ : ServerState) from rfl]
    rw [memberOf_urAdd1]
    rfl
  constructor
  · intro rid room' u hget'
    have hget'' : alGet (alSet s.rooms roomId
        { room with users := room.users ++ [userId] }) rid = some room' := hget'
    rw [alGet_alSet] at hget''
    rw [hmem u]
    by_cases hr : roomId = rid
    · subst hr
      rw [if_pos rfl] at hget''
      have hroom : room' = { room with users := room.users ++ [userId] } := by
        injection hget'' with hh
        exact hh.symm
      subst hroom
      by_cases hu : userId = u
      · subst hu
        simp [mem_jsSetAdd]
      · rw [if_neg hu]
        have old := hbi roomId room u hget
        simp only [List.mem_append, List.mem_singleton]
        constructor
        · rintro (hx | rfl)
          · exact old.mp hx
          · exact absurd rfl hu
        · intro hx
          exact Or.inl (old.mpr hx)
    · rw [if_neg hr] at hget''
      have old := hbi rid room' u hget''
      by_cases hu : userId = u
      · rw [if_pos hu, old, mem_jsSetAdd]
        constructor
        · exact Or.inl
        · rintro (hx | rfl)
          · exact hx
          · exact absurd rfl hr
      · rw [if_neg hu]
        exact old
  · intro u rid hin
    rw [hmem u] at hin
    show (alGet (alSet s.rooms roomId _) rid).isSome = true
    rw [alGet_alSet]
    by_cases hr : roomId = rid
    · rw [if_pos hr]; rfl
    · rw [if_neg hr]
      apply hnd u rid
      by_cases hu : userId = u
      · rw [if_pos hu] at hin
        rcases (mem_jsSetAdd _ _ _).mp hin with hx | hx
        · exact hx
        · exact absurd hx (fun hh => hr hh.symm)
      · rw [if_neg hu] at hin
        exact hin

/-- The state part of `deleteRoom` on a live room preserves the invariant. -/
theorem inv_deleteApply (s : ServerState) (roomId : RoomId) (room : Room)
    (hget : alGet s.rooms roomId = some room) (h : MembershipInvariant s) :
    MembershipInvariant
      ⟨alErase s.rooms roomId, urDelAll s.userRooms room.users roomId⟩ := by
  obtain ⟨hbi, hnd⟩ := h
  set s' : ServerState :=
    ⟨alErase s.rooms roomId, urDelAll s.userRooms room.users roomId⟩ with hs'
  have hmem : ∀ u, memberOf s' u =
      if u ∈ room.users then jsSetDelete (memberOf s u) roomId else memberOf s u := by
    intro u
    rw [hs', memberOf_urDelAll]
    rfl
  constructor
  · intro rid room' u hget'
    have hget'' : alGet (alErase s.rooms roomId) rid = some room' := hget'
    rw [alGet_alErase] at hget''
    by_cases hr : roomId = rid
    · rw [if_pos hr] at hget''
      exact absurd hget'' (by simp)
    · rw [if_neg hr] at hget''
      have old := hbi rid room' u hget''
      rw [hmem u]
      by_cases hu : u ∈ room.users
      · rw [if_pos hu, old, mem_jsSetDelete]
        constructor
        · intro hx
          exact ⟨hx, fun hh => hr hh.symm⟩
        · exact And.left
      · rw [if_neg hu]
        exact old
  · intro u rid hin
    rw [hmem u] at hin
    show (alGet (alErase s.rooms roomId) rid).isSome = true
    rw [alGet_alErase]
    by_cases hu : u ∈ room.users
    · rw [if_pos hu] at hin
      obtain ⟨hin', hne⟩ := (mem_jsSetDelete _ _ _).mp hin
      rw [if_neg (fun hh => hne hh.symm)]
      exact hnd u rid hin'
    · rw [if_neg hu] at hin
      have hne : rid ≠ roomId := by
        intro hh
        subst hh
        exact hu ((hbi rid room u hget).mpr hin)
      rw [if_neg (fun hh => hne hh.symm)]
      exact hnd u rid hin

theorem inv_deleteRoom (s : ServerState) (roomId : RoomId)
    (h : MembershipInvariant s) : MembershipInvariant (deleteRoom s roomId).1 := by
  unfold deleteRoom
  cases hget : alGet s.rooms roomId with
  | none => exact h
  | some room => exact inv_deleteApply s roomId room hget h

theorem inv_resetRoomTimer (s : ServerState) (roomId : RoomId) (now : Nat)
    (h : MembershipInvariant s) : MembershipInvariant (resetRoomTimer s roomId now) :=
  inv_congr s (resetRoomTimer s roomId now)
    (rooms_resetRoomTimer s roomId now)
    (fun u => by unfold memberOf; rw [userRooms_resetRoomTimer]) h

/-- Replacing a room with one having the same member set preserves the
invariant. -/
theorem inv_setRoomSameUsers (s : ServerState) (roomId : RoomId) (room room1 : Room)
    (hget : alGet s.rooms roomId = some room) (husers : room1.users = room.users)
    (h : MembershipInvariant s) :
    MembershipInvariant ⟨alSet s.rooms roomId room1, s.userRooms⟩ := by
  apply inv_congr s _ _ _ h
  · intro rid
    show (alGet (alSet s.rooms roomId room1) rid).map Room.users = _
    rw [alGet_alSet]
    by_cases hr : roomId = rid
    · subst hr
      rw [if_pos rfl, hget]
      simp [husers]
    · rw [if_neg hr]
  · intro u
    rfl

theorem inv_handleCreateRoom (s : ServerState) (roomId : RoomId)
    (userIds : List UserId) (now : Nat) (h : MembershipInvariant s) :
    MembershipInvariant (handleCreateRoom s roomId userIds now).1 := by
  unfold handleCreateRoom
  by_cases hex : (alGet s.rooms roomId).isSome
  · simp only [if_pos hex]
    exact h
  · simp only [if_neg hex]
    have habs : alGet s.rooms roomId = none := by
      cases hh : alGet s.rooms roomId with
      | none => rfl
      | some r => rw [hh] at hex; simp at hex
    exact inv_createRoom s roomId userIds now h habs

theorem inv_handleJoinRoom (s : ServerState) (roomId : RoomId) (userId : UserId)
    (now : Nat) (h : MembershipInvariant s) :
    MembershipInvariant (handleJoinRoom s roomId userId now).1 := by
  unfold handleJoinRoom
  cases hget : alGet s.rooms roomId with
  | none => exact h
  | some room =>
    by_cases hmem0 : userId ∈ room.users
    · simp only [if_pos hmem0]
      exact inv_resetRoomTimer s roomId now h
    · simp only [if_neg hmem0]
      exact inv_resetRoomTimer _ roomId now (inv_joinAdd s roomId room userId hget h)

theorem inv_handleSendMessage (s : ServerState) (roomId : RoomId) (userId : UserId)
    (message : String) (now : Nat) (suffix : String) (h : MembershipInvariant s) :
    MembershipInvariant (handleSendMessage s roomId userId message now suffix).1 := by
  unfold handleSendMessage
  cases hget : alGet s.rooms roomId with
  | none => exact h
  | some room =>
    by_cases hm : userId ∈ room.users
    · simp only [if_pos hm]
      exact inv_resetRoomTimer _ roomId now
        (inv_setRoomSameUsers s roomId room _ hget rfl h)
    · simp only [if_neg hm]
      exact h

theorem inv_handleJoinByUser (s : ServerState) (userId currentUserId : UserId)
    (genId : RoomId) (now : Nat) (habs : alGet s.rooms genId = none)
    (h : MembershipInvariant s) :
    MembershipInvariant (handleJoinByUser s userId currentUserId genId now).1 := by
  unfold handleJoinByUser
  cases hf : findTwoPartyRoom s currentUserId userId with
  | some room => exact h
  | none => exact inv_createRoom s genId [currentUserId, userId] now h habs

/-- C1.  After every create, join, and delete operation (and message
sends, which leave membership untouched, and implicit creates with a
non-colliding generated id), the bidirectional membership invariant
holds in every reachable state: a user is in a live room's member set
exactly when the room id is in the user's index entry, and no index
entry points at a dead room. -/
theorem C1_membership_invariant (s : ServerState) (h : Reachable s) :
    MembershipInvariant s := by
  induction h with
  | init =>
    constructor
    · intro rid room u hget
      simp [initialState, alGet] at hget
    · intro u rid hin
      simp [initialState, memberOf, alGet] at hin
  | createStep s roomId userIds now _ ih =>
    exact inv_handleCreateRoom s roomId userIds now ih
  | joinStep s roomId userId now _ ih =>
    exact inv_handleJoinRoom s roomId userId now ih
  | deleteStep s roomId _ ih =>
    exact inv_deleteRoom s roomId ih
  | sendStep s roomId userId message now suffix _ ih =>
    exact inv_handleSendMessage s roomId userId message now suffix ih
  | joinByUserStep s userId currentUserId genId now habs _ ih =>
    exact inv_handleJoinByUser s userId currentUserId genId now habs ih

theorem lookup_resetRoomTimer_other (s : ServerState) (roomId : RoomId) (now : Nat)
    (rid : RoomId) (hne : roomId ≠ rid) :
    alGet (resetRoomTimer s roomId now).rooms rid = alGet s.rooms rid := by
  unfold resetRoomTimer
  cases hget : alGet s.rooms roomId with
  | none => rfl
  | some room =>
    show alGet (alSet s.rooms roomId _) rid = _
    rw [alGet_alSet, if_neg hne]

/-- The successor state of a successful `join_room`, by membership case. -/
theorem handleJoinRoom_state (s : ServerState) (roomId : RoomId) (userId : UserId)
    (now : Nat) (room : Room) (hget : alGet s.rooms roomId = some room) :
    (handleJoinRoom s roomId userId now).1 =
      resetRoomTimer
        (if userId ∈ room.users then s
         else ⟨alSet s.rooms roomId { room with users := room.users ++ [userId] },
               urAdd1 s.userRooms userId roomId⟩) roomId now := by
  unfold handleJoinRoom
  rw [hget]

/-- After a successful `join_room`, the room's registry entry. -/
theorem handleJoinRoom_lookup (s : ServerState) (roomId : RoomId) (userId : UserId)
    (now : Nat) (room : Room) (hget : alGet s.rooms roomId = some room) :
    alGet (handleJoinRoom s roomId userId now).1.rooms roomId =
      some { room with
        users := if userId ∈ room.users then room.users else room.users ++ [userId],
        expiresAt := now + ROOM_EXPIRATION_MS } := by
  rw [handleJoinRoom_state s roomId userId now room hget]
  by_cases hm : userId ∈ room.users
  · rw [if_pos hm, if_pos hm]
    rw [expiresAt_resetRoomTimer s roomId now room hget]
  · rw [if_neg hm, if_neg hm]
    rw [expiresAt_resetRoomTimer _ roomId now { room with users := room.users ++ [userId] }
      (by show alGet (alSet s.rooms roomId _) roomId = _
          rw [alGet_alSet, if_pos rfl])]

/-- `join_room` does not touch other registry entries. -/
theorem handleJoinRoom_lookup_other (s : ServerState) (roomId : RoomId)
    (userId : UserId) (now : Nat) (rid : RoomId) (hne : roomId ≠ rid) :
    alGet (handleJoinRoom s roomId userId now).1.rooms rid = alGet s.rooms rid := by
  unfold handleJoinRoom
  cases hget : alGet s.rooms roomId with
  | none => rfl
  | some room =>
    by_cases hm : userId ∈ room.users
    · simp only [if_pos hm]
      exact lookup_resetRoomTimer_other s roomId now rid hne
    · simp only [if_neg hm]
      rw [lookup_resetRoomTimer_other _ roomId now rid hne]
      show alGet (alSet s.rooms roomId _) rid = _
      rw [alGet_alSet, if_neg hne]

/-- The index after a successful `join_room`, by membership case. -/
theorem handleJoinRoom_userRooms (s : ServerState) (roomId : RoomId)
    (userId : UserId) (now : Nat) (room : Room)
    (hget : alGet s.rooms roomId = some room) :
    (handleJoinRoom s roomId userId now).1.userRooms =
      if userId ∈ room.users then s.userRooms
      else urAdd1 s.userRooms userId roomId := by
  rw [handleJoinRoom_state s roomId userId now room hget]
  by_cases hm : userId ∈ room.users
  · rw [if_pos hm, if_pos hm, userRooms_resetRoomTimer]
  · rw [if_neg hm, if_neg hm, userRooms_resetRoomTimer]

/-- C4.  `join_room` is idempotent on membership: joining the same
room twice with the same user leaves every room's member set and the
whole membership index exactly as after the first join; yet each of
the two calls rearms the countdown, setting the room's `expiresAt` to
its own `now + TTL`. -/
theorem C4_join_idempotent (s : ServerState) (roomId : RoomId) (userId : UserId)
    (t1 t2 : Nat) (room : Room) (hget : alGet s.rooms roomId = some room) :
    (∀ rid,
      (alGet (handleJoinRoom (handleJoinRoom s roomId userId t1).1
          roomId userId t2).1.rooms rid).map Room.users =
        (alGet (handleJoinRoom s roomId userId t1).1.rooms rid).map Room.users) ∧
    (handleJoinRoom (handleJoinRoom s roomId userId t1).1 roomId userId t2).1.userRooms =
      (handleJoinRoom s roomId userId t1).1.userRooms ∧
    (alGet (handleJoinRoom s roomId userId t1).1.rooms roomId).map Room.expiresAt =
      some (t1 + ROOM_EXPIRATION_MS) ∧
    (alGet (handleJoinRoom (handleJoinRoom s roomId userId t1).1
        roomId userId t2).1.rooms roomId).map Room.expiresAt =
      some (t2 + ROOM_EXPIRATION_MS) := by
  have h1 := handleJoinRoom_lookup s roomId userId t1 room hget
  set room1 : Room := { room with
    users := if userId ∈ room.users then room.users else room.users ++ [userId],
    expiresAt := t1 + ROOM_EXPIRATION_MS } with hroom1
  have hm1 : userId ∈ room1.users := by
    rw [hroom1]
    by_cases hm : userId ∈ room.users <;> simp [hm]
  refine ⟨?_, ?_, ?_, ?_⟩
  · intro rid
    by_cases hr : roomId = rid
    · subst hr
      rw [handleJoinRoom_lookup _ roomId userId t2 room1 h1, h1]
      simp [if_pos hm1]
    · rw [handleJoinRoom_lookup_other _ roomId userId t2 rid hr]
  · rw [handleJoinRoom_userRooms _ roomId userId t2 room1 h1, if_pos hm1]
  · rw [h1]
    rfl
  · rw [handleJoinRoom_lookup _ roomId userId t2 room1 h1]
    rfl

/-- Witness for C4 on a concrete state (user `u2` already a member,
joined at times 50 and 70). -/
theorem C4_join_idempotent_witness :
    ((alGet (handleJoinRoom (handleJoinRoom sampleState "AB12" "u2" 50).1
        "AB12" "u2" 70).1.rooms "AB12").map Room.users =
      (alGet (handleJoinRoom sampleState "AB12" "u2" 50).1.rooms "AB12").map Room.users) ∧
    (handleJoinRoom (handleJoinRoom sampleState "AB12" "u2" 50).1
        "AB12" "u2" 70).1.userRooms =
      (handleJoinRoom sampleState "AB12" "u2" 50).1.userRooms ∧
    (alGet (handleJoinRoom sampleState "AB12" "u2" 50).1.rooms "AB12").map
        Room.expiresAt = some (50 + ROOM_EXPIRATION_MS) ∧
    (alGet (handleJoinRoom (handleJoinRoom sampleState "AB12" "u2" 50).1
        "AB12" "u2" 70).1.rooms "AB12").map Room.expiresAt =
      some (70 + ROOM_EXPIRATION_MS) :=
  ⟨(C4_join_idempotent sampleState "AB12" "u2" 50 70
      ⟨"AB12", ["u1", "u2"], [], 0, 300000⟩ (by decide)).1 "AB12",
   (C4_join_idempotent sampleState "AB12" "u2" 50 70
      ⟨"AB12", ["u1", "u2"], [], 0, 300000⟩ (by decide)).2.1,
   (C4_join_idempotent sampleState "AB12" "u2" 50 70
      ⟨"AB12", ["u1", "u2"], [], 0, 300000⟩ (by decide)).2.2.1,
   (C4_join_idempotent sampleState "AB12" "u2" 50 70
      ⟨"AB12", ["u1", "u2"], [], 0, 300000⟩ (by decide)).2.2.2⟩

theorem jsCeilDiv_nonpos {a b : Int} (ha : a ≤ 0) (hb : 0 ≤ b) :
    jsCeilDiv a b ≤ 0 := by
  unfold jsCeilDiv
  have h : 0 ≤ (-a).fdiv b := Int.fdiv_nonneg (by omega) hb
  omega

theorem jsCeilDiv_nonneg {a b : Int} (ha : 0 ≤ a) (hb : 0 < b) :
    0 ≤ jsCeilDiv a b := by
  unfold jsCeilDiv
  rcases eq_or_lt_of_le ha with h | h
  · rw [← h]
    simp
  · have hlt : (-a).fdiv b < 0 := Int.fdiv_neg' (by omega) hb
    omega

/-- The emitted countdown value equals the ceiling, in minutes, of the
clamped remaining duration `max 0 (expiresAt - now)`. -/
theorem minutesLeftOf_eq_ceil_clamped (e t : Nat) :
    minutesLeftOf e t = jsCeilDiv (max 0 ((e : Int) - (t : Int))) 60000 := by
  unfold minutesLeftOf
  set a : Int := (e : Int) - (t : Int) with ha
  by_cases h : 0 ≤ a
  · rw [max_eq_right h, max_eq_right (jsCeilDiv_nonneg h (by norm_num))]
  · push_neg at h
    rw [max_eq_left (le_of_lt h),
        max_eq_left (jsCeilDiv_nonpos (le_of_lt h) (by norm_num))]
    simp [jsCeilDiv]

theorem minutesLeftOf_nonneg (e t : Nat) : 0 ≤ minutesLeftOf e t :=
  le_max_left 0 _

/-- Immediately after a countdown reset at time `t`, the emitted value
is the configured TTL of five minutes. -/
theorem minutesLeftOf_after_reset (t : Nat) :
    minutesLeftOf (t + ROOM_EXPIRATION_MS) t = 5 := by
  unfold minutesLeftOf
  have h : ((t + ROOM_EXPIRATION_MS : Nat) : Int) - (t : Int) = 300000 := by
    unfold ROOM_EXPIRATION_MS ROOM_EXPIRATION_MINUTES
    push_cast
    omega
  rw [h]
  decide

/-- The `room_expiration` value emitted by `join_room` (always computed
after the countdown reset of the same instant). -/
theorem handleJoinRoom_expiration_out (s : ServerState) (roomId : RoomId)
    (userId : UserId) (now : Nat) (room : Room)
    (hget : alGet s.rooms roomId = some room) :
    ((handleJoinRoom s roomId userId now).2).get? 1 =
      some (Target.sender,
        SEvent.room_expiration (minutesLeftOf (now + ROOM_EXPIRATION_MS) now)) := by
  unfold handleJoinRoom
  rw [hget]
  by_cases hm : userId ∈ room.users
  · simp only [if_pos hm]
    rw [expiresAt_resetRoomTimer s roomId now room hget]
    rfl
  · simp only [if_neg hm]
    rw [expiresAt_resetRoomTimer _ roomId now { room with users := room.users ++ [userId] }
      (by show alGet (alSet s.rooms roomId _) roomId = _
          rw [alGet_alSet, if_pos rfl])]
    rfl

/-- The `room_expiration` value emitted by `send_message` (always
computed after the countdown reset of the same instant). -/
theorem handleSendMessage_expiration_out (s : ServerState) (roomId : RoomId)
    (userId : UserId) (message : String) (now : Nat) (suffix : String) (room : Room)
    (hget : alGet s.rooms roomId = some room) (hm : userId ∈ room.users) :
    ((handleSendMessage s roomId userId message now suffix).2).get? 1 =
      some (Target.room roomId,
        SEvent.room_expiration (minutesLeftOf (now + ROOM_EXPIRATION_MS) now)) := by
  unfold handleSendMessage
  rw [hget]
  simp only [if_pos hm]
  rw [expiresAt_resetRoomTimer _ roomId now
    { room with messages := room.messages ++ [⟨mkMessageId now suffix, userId, message, now⟩] }
    (by show alGet (alSet s.rooms roomId _) roomId = _
        rw [alGet_alSet, if_pos rfl])]
  rfl

/-- C6.  The countdown value is `max(0, expiresAt - now)` rounded up to
minutes, hence never negative; `get_room_expiration` emits exactly that
value for the live room, while `join_room` and `send_message` emit it
right after rearming the countdown, so their emitted value is the
configured TTL of five minutes. -/
theorem C6_remaining_ttl (e t : Nat) (s : ServerState) (roomId : RoomId)
    (userId : UserId) (message : String) (now : Nat) (suffix : String) :
    0 ≤ minutesLeftOf e t ∧
    minutesLeftOf e t = jsCeilDiv (max 0 ((e : Int) - (t : Int))) 60000 ∧
    minutesLeftOf (t + ROOM_EXPIRATION_MS) t = 5 ∧
    (∀ room, alGet s.rooms roomId = some room →
      handleGetRoomExpiration s roomId now =
        (s, [(Target.sender, SEvent.room_expiration (minutesLeftOf room.expiresAt now))])) ∧
    (∀ room, alGet s.rooms roomId = some room →
      ((handleJoinRoom s roomId userId now).2).get? 1 =
        some (Target.sender, SEvent.room_expiration 5)) ∧
    (∀ room, alGet s.rooms roomId = some room → userId ∈ room.users →
      ((handleSendMessage s roomId userId message now suffix).2).get? 1 =
        some (Target.room roomId, SEvent.room_expiration 5)) := by
  refine ⟨minutesLeftOf_nonneg e t, minutesLeftOf_eq_ceil_clamped e t,
    minutesLeftOf_after_reset t, ?_, ?_, ?_⟩
  · intro room hget
    unfold handleGetRoomExpiration
    rw [hget]
  · intro room hget
    rw [handleJoinRoom_expiration_out s roomId userId now room hget,
        minutesLeftOf_after_reset]
  · intro room hget hm
    rw [handleSendMessage_expiration_out s roomId userId message now suffix room hget hm,
        minutesLeftOf_after_reset]

/-- Witness for C6 on a concrete state. -/
theorem C6_remaining_ttl_witness :
    0 ≤ minutesLeftOf 100000 40000 ∧
    minutesLeftOf 100000 40000 =
      jsCeilDiv (max 0 ((100000 : Int) - (40000 : Int))) 60000 ∧
    minutesLeftOf (40000 + ROOM_EXPIRATION_MS) 40000 = 5 ∧
    handleGetRoomExpiration sampleState "AB12" 40000 =
      (sampleState,
       [(Target.sender, SEvent.room_expiration (minutesLeftOf 300000 40000))]) ∧
    ((handleJoinRoom sampleState "AB12" "u1" 40000).2).get? 1 =
      some (Target.sender, SEvent.room_expiration 5) ∧
    ((handleSendMessage sampleState "AB12" "u1" "hi" 40000 "r3").2).get? 1 =
      some (Target.room "AB12", SEvent.room_expiration 5) :=
  ⟨(C6_remaining_ttl 100000 40000 sampleState "AB12" "u1" "hi" 40000 "r3").1,
   (C6_remaining_ttl 100000 40000 sampleState "AB12" "u1" "hi" 40000 "r3").2.1,
   (C6_remaining_ttl 100000 40000 sampleState "AB12" "u1" "hi" 40000 "r3").2.2.1,
   (C6_remaining_ttl 100000 40000 sampleState "AB12" "u1" "hi" 40000 "r3").2.2.2.1
     ⟨"AB12", ["u1", "u2"], [], 0, 300000⟩ (by decide),
   (C6_remaining_ttl 100000 40000 sampleState "AB12" "u1" "hi" 40000 "r3").2.2.2.2.1
     ⟨"AB12", ["u1", "u2"], [], 0, 300000⟩ (by decide),
   (C6_remaining_ttl 100000 40000 sampleState "AB12" "u1" "hi" 40000 "r3").2.2.2.2.2
     ⟨"AB12", ["u1", "u2"], [], 0, 300000⟩ (by decide) (by decide)⟩

theorem twoPartyScan_congr (s s' : ServerState) (a b : UserId) (l : List RoomId)
    (h : ∀ rid ∈ l, alGet s'.rooms rid = alGet s.rooms rid) :
    twoPartyScan s' a b l = twoPartyScan s a b l := by
  induction l with
  | nil => rfl
  | cons rid rest ih =>
    have ih' := ih (fun r hr => h r (List.mem_cons_of_mem rid hr))
    simp only [twoPartyScan]
    rw [h rid (List.mem_cons_self rid rest)]
    cases hg : alGet s.rooms rid with
    | none => exact ih'
    | some room =>
      dsimp only
      by_cases hc : room.users.length = 2 ∧ a ∈ room.users ∧ b ∈ room.users
      · rw [if_pos hc, if_pos hc]
      · rw [if_neg hc, if_neg hc]
        exact ih'

theorem twoPartyScan_append_none (s : ServerState) (a b : UserId)
    (l l2 : List RoomId) (h : twoPartyScan s a b l = none) :
    twoPartyScan s a b (l ++ l2) = twoPartyScan s a b l2 := by
  induction l with
  | nil => rfl
  | cons rid rest ih =>
    simp only [twoPartyScan] at h
    simp only [List.cons_append, twoPartyScan]
    cases hg : alGet s.rooms rid with
    | none =>
      rw [hg] at h
      exact ih h
    | some room =>
      rw [hg] at h
      dsimp only at h ⊢
      by_cases hc : room.users.length = 2 ∧ a ∈ room.users ∧ b ∈ room.users
      · rw [if_pos hc] at h
        exact absurd h (by simp)
      · rw [if_neg hc] at h ⊢
        exact ih h

/-- The `userRooms.has` guards of `join_by_user` are redundant: the
search is the scan over the common rooms in every case. -/
theorem findTwoPartyRoom_eq_scan (s : ServerState) (a b : UserId) :
    findTwoPartyRoom s a b = twoPartyScan s a b (commonRoomsOf s a b) := by
  unfold findTwoPartyRoom
  by_cases hg : (alGet s.userRooms a).isSome = true ∧ (alGet s.userRooms b).isSome = true
  · rw [if_pos hg]
  · rw [if_neg hg]
    rcases not_and_or.mp hg with hA | hB
    · have hempty : memberOf s a = [] := by
        unfold memberOf
        cases hh : alGet s.userRooms a with
        | none => rfl
        | some st => rw [hh] at hA; exact absurd rfl hA
      unfold commonRoomsOf
      rw [hempty]
      rfl
    · have hempty : memberOf s b = [] := by
        unfold memberOf
        cases hh : alGet s.userRooms b with
        | none => rfl
        | some st => rw [hh] at hB; exact absurd rfl hB
      unfold commonRoomsOf
      rw [hempty]
      rw [show (memberOf s a).filter (fun rid => decide (rid ∈ ([] : List RoomId))) = [] by simp]
      rfl

/-- C7.  `join_by_user`: when the index search finds a live two-member
room of exactly the two users, that room is returned to the caller via
`room_joined` and the state is unchanged; otherwise the state becomes
`createRoom` of the generated id for the pair and `room_created` with
user count 2 goes to the caller and to the other user's channel — and,
for distinct users and a fresh generated id, a second `join_by_user`
for the same pair then answers `room_joined` with the same room id and
creates nothing. -/
theorem C7_join_by_user (s : ServerState) (a b : UserId) (genId genId2 : RoomId)
    (now now2 : Nat) :
    (∀ room, findTwoPartyRoom s a b = some room →
      handleJoinByUser s b a genId now =
        (s, [(Target.sender, SEvent.room_joined room.id room.users.length)])) ∧
    (findTwoPartyRoom s a b = none →
      handleJoinByUser s b a genId now =
        ((createRoom s genId [a, b] now).1,
         [(Target.sender, SEvent.room_created genId 2),
          (Target.user b, SEvent.room_created genId 2)]) ∧
      (b ≠ a → genId ∉ memberOf s a → genId ∉ memberOf s b →
        handleJoinByUser (createRoom s genId [a, b] now).1 b a genId2 now2 =
          ((createRoom s genId [a, b] now).1,
           [(Target.sender, SEvent.room_joined genId 2)]))) := by
  constructor
  · intro room h
    unfold handleJoinByUser
    rw [h]
  · intro hnone
    constructor
    · unfold handleJoinByUser
      rw [hnone]
    · intro hba hga hgb
      have husers : (createRoom s genId [a, b] now).2.users = [a, b] := by
        show jsSetOf [a, b] = [a, b]
        exact jsSetOf_pair a b hba
      have hself : alGet (createRoom s genId [a, b] now).1.rooms genId =
          some (createRoom s genId [a, b] now).2 := by
        show alGet (alSet s.rooms genId _) genId = _
        rw [alGet_alSet, if_pos rfl]
        rfl
      have hother : ∀ rid, rid ≠ genId →
          alGet (createRoom s genId [a, b] now).1.rooms rid = alGet s.rooms rid := by
        intro rid hne
        show alGet (alSet s.rooms genId _) rid = _
        rw [alGet_alSet, if_neg (fun hh => hne hh.symm)]
      have hmem : ∀ u, memberOf (createRoom s genId [a, b] now).1 u =
          if u ∈ [a, b] then jsSetAdd (memberOf s u) genId else memberOf s u := by
        intro u
        show memberOf ⟨alSet s.rooms genId _, urAddAll s.userRooms [a, b] genId⟩ u = _
        rw [memberOf_urAddAll]
        rfl
      have hma : memberOf (createRoom s genId [a, b] now).1 a = memberOf s a ++ [genId] := by
        rw [hmem a, if_pos (by simp)]
        unfold jsSetAdd
        rw [if_neg hga]
      have hmb : memberOf (createRoom s genId [a, b] now).1 b = memberOf s b ++ [genId] := by
        rw [hmem b, if_pos (by simp)]
        unfold jsSetAdd
        rw [if_neg hgb]
      have hguardA : (alGet (createRoom s genId [a, b] now).1.userRooms a).isSome = true := by
        show (alGet (urAddAll s.userRooms [a, b] genId) a).isSome = true
        rw [alGet_urAddAll, if_pos (by simp)]
        rfl
      have hguardB : (alGet (createRoom s genId [a, b] now).1.userRooms b).isSome = true := by
        show (alGet (urAddAll s.userRooms [a, b] genId) b).isSome = true
        rw [alGet_urAddAll, if_pos (by simp)]
        rfl
      have hcommon : commonRoomsOf (createRoom s genId [a, b] now).1 a b =
          commonRoomsOf s a b ++ [genId] := by
        unfold commonRoomsOf
        rw [hma, hmb, List.filter_append]
        congr 1
        · apply List.filter_congr
          intro x hx
          have hxne : x ≠ genId := fun hh => hga (hh ▸ hx)
          simp [List.mem_append, hxne]
        · simp
      have hscan_old : twoPartyScan s a b (commonRoomsOf s a b) = none := by
        rw [← findTwoPartyRoom_eq_scan]
        exact hnone
      have hscan_old' :
          twoPartyScan (createRoom s genId [a, b] now).1 a b (commonRoomsOf s a b) = none := by
        rw [twoPartyScan_congr s (createRoom s genId [a, b] now).1 a b (commonRoomsOf s a b)
          (fun rid hr => by
            have hr' : rid ∈ memberOf s a := (List.mem_filter.mp hr).1
            exact hother rid (fun hh => hga (hh ▸ hr')))]
        exact hscan_old
      have hcond : (createRoom s genId [a, b] now).2.users.length = 2 ∧
          a ∈ (createRoom s genId [a, b] now).2.users ∧
          b ∈ (createRoom s genId [a, b] now).2.users := by
        rw [husers]
        exact ⟨rfl, by simp, by simp⟩
      have hfind' : findTwoPartyRoom (createRoom s genId [a, b] now).1 a b =
          some (createRoom s genId [a, b] now).2 := by
        unfold findTwoPartyRoom
        rw [if_pos ⟨hguardA, hguardB⟩, hcommon,
            twoPartyScan_append_none _ a b _ [genId] hscan_old']
        simp only [twoPartyScan]
        rw [hself]
        dsimp only
        rw [if_pos hcond]
      unfold handleJoinByUser
      rw [hfind']
      dsimp only
      rw [show (createRoom s genId [a, b] now).2.users.length = 2 by rw [husers]; rfl]
      rfl

/-- Witness for C7: a fresh pair creates `EF56`; the second call joins
it; a third call (with another fresh generated id) still joins it. -/
theorem C7_join_by_user_witness :
    handleJoinByUser initialState "u2" "u1" "EF56" 100 =
      ((createRoom initialState "EF56" ["u1", "u2"] 100).1,
       [(Target.sender, SEvent.room_created "EF56" 2),
        (Target.user "u2", SEvent.room_created "EF56" 2)]) ∧
    handleJoinByUser (createRoom initialState "EF56" ["u1", "u2"] 100).1
        "u2" "u1" "GH78" 200 =
      ((createRoom initialState "EF56" ["u1", "u2"] 100).1,
       [(Target.sender, SEvent.room_joined "EF56" 2)]) ∧
    handleJoinByUser (createRoom initialState "EF56" ["u1", "u2"] 100).1
        "u2" "u1" "JK90" 300 =
      ((createRoom initialState "EF56" ["u1", "u2"] 100).1,
       [(Target.sender, SEvent.room_joined "EF56" 2)]) :=
  ⟨((C7_join_by_user initialState "u1" "u2" "EF56" "GH78" 100 200).2 (by decide)).1,
   ((C7_join_by_user initialState "u1" "u2" "EF56" "GH78" 100 200).2 (by decide)).2
     (by decide) (by decide) (by decide),
   (C7_join_by_user (createRoom initialState "EF56" ["u1", "u2"] 100).1
       "u1" "u2" "JK90" "ZZ00" 300 400).1
     ⟨"EF56", ["u1", "u2"], [], 100, 300100⟩ (by decide)⟩

theorem string_data_append (x y : String) : (x ++ y).data = x.data ++ y.data := by
  cases x
  cases y
  rfl

theorem digitChar_toNat (d : Nat) (h : d < 10) : (digitChar d).toNat = 48 + d := by
  interval_cases d <;> decide

theorem digitChar_ne_dash (d : Nat) (h : d < 10) : digitChar d ≠ '-' := by
  interval_cases d <;> decide

theorem dash_not_in_natCharsAux (fuel : Nat) : ∀ n, '-' ∉ natCharsAux fuel n := by
  induction fuel with
  | zero =>
    intro n
    simp [natCharsAux]
  | succ fuel ih =>
    intro n
    simp only [natCharsAux]
    by_cases h : n < 10
    · rw [if_pos h]
      intro hmem
      exact digitChar_ne_dash n h (List.mem_singleton.mp hmem).symm
    · rw [if_neg h]
      intro hmem
      rcases List.mem_append.mp hmem with hm | hm
      · exact ih (n / 10) hm
      · exact digitChar_ne_dash (n % 10) (Nat.mod_lt n (by omega))
          (List.mem_singleton.mp hm).symm

theorem dash_not_in_natChars (n : Nat) : '-' ∉ natChars n :=
  dash_not_in_natCharsAux (n + 1) n

theorem natVal_append_digit (l : List Char) (c : Char) :
    natVal (l ++ [c]) = natVal l * 10 + (c.toNat - 48) := by
  unfold natVal
  rw [List.foldl_append]
  rfl

theorem natVal_natCharsAux (fuel : Nat) :
    ∀ n, n < fuel → natVal (natCharsAux fuel n) = n := by
  induction fuel with
  | zero =>
    intro n h
    omega
  | succ fuel ih =>
    intro n h
    simp only [natCharsAux]
    by_cases h10 : n < 10
    · rw [if_pos h10]
      show natVal [digitChar n] = n
      unfold natVal
      simp only [List.foldl_cons, List.foldl_nil]
      rw [digitChar_toNat n h10]
      omega
    · rw [if_neg h10]
      rw [natVal_append_digit,
          ih (n / 10) (by omega),
          digitChar_toNat (n % 10) (Nat.mod_lt n (by omega))]
      omega

theorem natVal_natChars (n : Nat) : natVal (natChars n) = n :=
  natVal_natCharsAux (n + 1) n (by omega)

theorem natChars_injective {m n : Nat} (h : natChars m = natChars n) : m = n := by
  have hm := natVal_natChars m
  rw [h, natVal_natChars] at hm
  exact hm.symm

theorem append_dash_injective (l1 : List Char) :
    ∀ (l2 m1 m2 : List Char), '-' ∉ l1 → '-' ∉ l2 →
      l1 ++ '-' :: m1 = l2 ++ '-' :: m2 → l1 = l2 ∧ m1 = m2 := by
  induction l1 with
  | nil =>
    intro l2 m1 m2 h1 h2 heq
    cases l2 with
    | nil =>
      simp only [List.nil_append, List.cons.injEq] at heq
      exact ⟨rfl, heq.2⟩
    | cons c l2' =>
      simp only [List.nil_append, List.cons_append, List.cons.injEq] at heq
      exact absurd (by rw [← heq.1]; exact List.mem_cons_self '-' l2') h2
  | cons c l1' ih =>
    intro l2 m1 m2 h1 h2 heq
    cases l2 with
    | nil =>
      simp only [List.cons_append, List.nil_append, List.cons.injEq] at heq
      exact absurd (by rw [heq.1]; exact List.mem_cons_self '-' l1') h1
    | cons c' l2' =>
      simp only [List.cons_append, List.cons.injEq] at heq
      obtain ⟨hc, heq'⟩ := heq
      have h1' : '-' ∉ l1' := fun hm => h1 (List.mem_cons_of_mem c hm)
      have h2' : '-' ∉ l2' := fun hm => h2 (List.mem_cons_of_mem c' hm)
      obtain ⟨hl, hmm⟩ := ih l2' m1 m2 h1' h2' heq'
      exact ⟨by rw [hc, hl], hmm⟩

theorem mkMessageId_data (t : Nat) (s : String) :
    (mkMessageId t s).data = natChars t ++ '-' :: s.data := by
  unfold mkMessageId natToString
  rw [string_data_append, string_data_append]
  show (natChars t ++ ['-']) ++ s.data = natChars t ++ '-' :: s.data
  rw [List.append_assoc]
  rfl

/-- A generated message id determines the timestamp and the random
suffix, provided the suffix contains no dash (true of the base-36
output of `Math.random().toString(36).substr(2, 9)`). -/
theorem mkMessageId_inj (t1 t2 : Nat) (s1 s2 : String)
    (h1 : '-' ∉ s1.data) (h2 : '-' ∉ s2.data)
    (heq : mkMessageId t1 s1 = mkMessageId t2 s2) : t1 = t2 ∧ s1 = s2 := by
  have hd : (mkMessageId t1 s1).data = (mkMessageId t2 s2).data := by rw [heq]
  rw [mkMessageId_data, mkMessageId_data] at hd
  obtain ⟨hl, hmm⟩ := append_dash_injective (natChars t1) (natChars t2) s1.data s2.data
    (dash_not_in_natChars t1) (dash_not_in_natChars t2) hd
  refine ⟨natChars_injective hl, ?_⟩
  cases s1
  cases s2
  exact congrArg String.mk hmm

/-- C10 (counterexample).  Two sends in the same instant with the same
random draw store two distinct messages whose ids coincide: after `u1`
and `u2` each send at t=1000 with suffix `k3j9q`, the log of `AB12`
holds two different messages both with id `1000-k3j9q`. -/
theorem C10_duplicate_ids_counterexample :
    ((alGet (handleSendMessage (handleSendMessage sampleState "AB12" "u1" "hi" 1000 "k3j9q").1
        "AB12" "u2" "yo" 1000 "k3j9q").1.rooms "AB12").map Room.messages).getD [] =
      [⟨"1000-k3j9q", "u1", "hi", 1000⟩, ⟨"1000-k3j9q", "u2", "yo", 1000⟩] ∧
    (⟨"1000-k3j9q", "u1", "hi", 1000⟩ : Message) ≠ ⟨"1000-k3j9q", "u2", "yo", 1000⟩ ∧
    Message.id ⟨"1000-k3j9q", "u1", "hi", 1000⟩ =
      Message.id ⟨"1000-k3j9q", "u2", "yo", 1000⟩ := by
  refine ⟨by decide, by decide, rfl⟩

/-- C10 (amended).  Message ids are unique only per draw: the id is the
decimal timestamp, a dash, and the random suffix, so ids of messages
created from distinct `(timestamp, suffix)` draws are distinct, while
two messages created in the same instant with the same random draw
receive identical ids (no uniqueness check exists in the code). -/
theorem C10_distinct_draws_distinct_ids (t1 t2 : Nat) (s1 s2 : String)
    (h1 : '-' ∉ s1.data) (h2 : '-' ∉ s2.data) (hne : t1 ≠ t2 ∨ s1 ≠ s2) :
    mkMessageId t1 s1 ≠ mkMessageId t2 s2 := by
  intro heq
  obtain ⟨ht, hs⟩ := mkMessageId_inj t1 t2 s1 s2 h1 h2 heq
  rcases hne with h | h
  · exact h ht
  · exact h hs

/-- Witness for the amended C10. -/
theorem C10_distinct_draws_distinct_ids_witness :
    mkMessageId 1000 "k3j9q" ≠ mkMessageId 1001 "k3j9q" :=
  C10_distinct_draws_distinct_ids 1000 1001 "k3j9q" "k3j9q"
    (by decide) (by decide) (Or.inl (by decide))

/-- C2.  Creating a room whose id is already live fails with the
`AlreadyExists` error to the sender and performs no merge or overwrite:
the whole state (registry and index, hence the existing room, its
member set and its message log) is returned unchanged.  Consequently a
second create with the same id and no intervening delete fails. -/
theorem C2_create_already_exists (s : ServerState) (roomId : RoomId)
    (userIds userIds2 : List UserId) (now now2 : Nat) :
    ((alGet s.rooms roomId).isSome = true →
      handleCreateRoom s roomId userIds now =
        (s, [(Target.sender, SEvent.error "Комната с таким ID уже существует")])) ∧
    (alGet s.rooms roomId = none →
      handleCreateRoom (handleCreateRoom s roomId userIds now).1 roomId userIds2 now2 =
        ((handleCreateRoom s roomId userIds now).1,
         [(Target.sender, SEvent.error "Комната с таким ID уже существует")])) := by
  constructor
  · intro hex
    unfold handleCreateRoom
    rw [if_pos hex]
  · intro habs
    have hs1 : (handleCreateRoom s roomId userIds now).1 =
        (createRoom s roomId userIds now).1 := by
      unfold handleCreateRoom
      rw [if_neg (by rw [habs]; simp)]
    have h2 : (alGet (handleCreateRoom s roomId userIds now).1.rooms roomId).isSome = true := by
      rw [hs1]
      show (alGet (alSet s.rooms roomId _) roomId).isSome = true
      rw [alGet_alSet, if_pos rfl]
      rfl
    set s1 := (handleCreateRoom s roomId userIds now).1 with hs1def
    unfold handleCreateRoom
    rw [if_pos h2]

/-- Witness for C2 on concrete states. -/
theorem C2_create_already_exists_witness :
    handleCreateRoom sampleState "AB12" ["u9"] 7 =
      (sampleState, [(Target.sender, SEvent.error "Комната с таким ID уже существует")]) ∧
    handleCreateRoom (handleCreateRoom initialState "QQ55" ["u7"] 2).1 "QQ55" ["u8"] 3 =
      ((handleCreateRoom initialState "QQ55" ["u7"] 2).1,
       [(Target.sender, SEvent.error "Комната с таким ID уже существует")]) :=
  ⟨(C2_create_already_exists sampleState "AB12" ["u9"] [] 7 0).1 (by decide),
   (C2_create_already_exists initialState "QQ55" ["u7"] ["u8"] 2 3).2 (by decide)⟩

/-- C3 (failing-input evaluation).  The implicit-create path of
`join_by_user` does not fail on a colliding generated id: starting from
the state with live room `AB12` owned by `u1`,`u2`, a `join_by_user`
for the pair `u3`,`u4` whose generated id collides with `AB12` emits
two `room_created` events and no error, replaces the pre-existing room
(its member set becomes `u3`,`u4`), leaves `u1` with a now-inconsistent
index entry, and thereby breaks the bidirectional membership
invariant. -/
theorem C3_implicit_create_collision_overwrites :
    (handleJoinByUser sampleState "u4" "u3" "AB12" 1000).2 =
      [(Target.sender, SEvent.room_created "AB12" 2),
       (Target.user "u4", SEvent.room_created "AB12" 2)] ∧
    (alGet (handleJoinByUser sampleState "u4" "u3" "AB12" 1000).1.rooms "AB12").map
        Room.users = some ["u3", "u4"] ∧
    memberOf (handleJoinByUser sampleState "u4" "u3" "AB12" 1000).1 "u1" = ["AB12"] ∧
    ¬ BidirectionalIndex (handleJoinByUser sampleState "u4" "u3" "AB12" 1000).1 := by
  refine ⟨by decide, by decide, by decide, ?_⟩
  intro hbi
  have h := hbi "AB12" ⟨"AB12", ["u3", "u4"], [], 1000, 301000⟩ "u1" (by decide)
  have h1 : ("u1" : String) ∈ Room.users ⟨"AB12", ["u3", "u4"], [], 1000, 301000⟩ :=
    h.mpr (by decide)
  exact absurd h1 (by decide)

/-- C5.  `send_message` validates before mutating: an absent room
yields a `NotFound` error to the sender only, a non-member sender
yields a `NotMember` error to the sender only, and in both cases the
returned state is exactly the input state (no message appended, the
registry and index untouched). -/
theorem C5_send_validation (s : ServerState) (roomId : RoomId) (userId : UserId)
    (message : String) (now : Nat) (suffix : String) :
    (alGet s.rooms roomId = none →
      handleSendMessage s roomId userId message now suffix =
        (s, [(Target.sender, SEvent.error "Комната не найдена")])) ∧
    (∀ room, alGet s.rooms roomId = some room → userId ∉ room.users →
      handleSendMessage s roomId userId message now suffix =
        (s, [(Target.sender, SEvent.error "Вы не участник комнаты")])) := by
  constructor
  · intro habs
    unfold handleSendMessage
    rw [habs]
  · intro room hget hm
    unfold handleSendMessage
    rw [hget]
    simp only [if_neg hm]

/-- Witness for C5 on concrete states. -/
theorem C5_send_validation_witness :
    handleSendMessage sampleState "ZZ99" "u1" "hi" 4 "r1" =
      (sampleState, [(Target.sender, SEvent.error "Комната не найдена")]) ∧
    handleSendMessage sampleState "AB12" "u9" "hi" 4 "r1" =
      (sampleState, [(Target.sender, SEvent.error "Вы не участник комнаты")]) :=
  ⟨(C5_send_validation sampleState "ZZ99" "u1" "hi" 4 "r1").1 (by decide),
   (C5_send_validation sampleState "AB12" "u9" "hi" 4 "r1").2
     ⟨"AB12", ["u1", "u2"], [], 0, 300000⟩ (by decide) (by decide)⟩

/-- C8 (counterexample).  Deleting the live room `AB12` emits exactly
one `room_deleted` event, addressed to the room channel
(`io.to(roomId)`), not to all connected clients: there is no global
broadcast. -/
theorem C8_not_global_counterexample :
    (deleteRoom sampleState "AB12").2 =
      [(Target.room "AB12", SEvent.room_deleted "AB12")] ∧
    Target.room "AB12" ≠ Target.all := by
  refine ⟨by decide, by decide⟩

/-- C8 (amended).  Every deletion of a live room emits exactly one
`room_deleted` event carrying the room id, addressed to the room's
channel (the sockets that joined the room id), and deleting an absent
room emits nothing. -/
theorem C8_delete_room_scoped (s : ServerState) (roomId : RoomId) :
    (∀ room, alGet s.rooms roomId = some room →
      (deleteRoom s roomId).2 = [(Target.room roomId, SEvent.room_deleted roomId)]) ∧
    (alGet s.rooms roomId = none → (deleteRoom s roomId).2 = []) := by
  constructor
  · intro room hget
    unfold deleteRoom
    rw [hget]
  · intro habs
    unfold deleteRoom
    rw [habs]

/-- Witness for the amended C8 on concrete states. -/
theorem C8_delete_room_scoped_witness :
    (deleteRoom sampleState2 "CD34").2 =
      [(Target.room "CD34", SEvent.room_deleted "CD34")] ∧
    (deleteRoom sampleState2 "ZZ99").2 = [] :=
  ⟨(C8_delete_room_scoped sampleState2 "CD34").1
     ⟨"CD34", ["u3"], [], 10, 300010⟩ (by decide),
   (C8_delete_room_scoped sampleState2 "ZZ99").2 (by decide)⟩

/-- C9 (counterexample).  The read-only operations on an unknown room
id are silently dropped: `get_messages` and `get_room_expiration` for
the absent id `ZZ99` emit nothing at all — in particular no `error`
event reaches the originating client. -/
theorem C9_readonly_silent_counterexample :
    handleGetMessages sampleState "ZZ99" = (sampleState, []) ∧
    handleGetRoomExpiration sampleState "ZZ99" 0 = (sampleState, []) := by
  refine ⟨by decide, by decide⟩

/-- C9 (amended).  On an unknown room id, `join_room` and
`send_message` emit a `NotFound` error addressed only to the
originating client, while the read-only `get_messages` and
`get_room_expiration` emit nothing at all; in every case the state is
unchanged. -/
theorem C9_unknown_room (s : ServerState) (roomId : RoomId) (userId : UserId)
    (message : String) (now : Nat) (suffix : String)
    (habs : alGet s.rooms roomId = none) :
    handleJoinRoom s roomId userId now =
      (s, [(Target.sender, SEvent.error "Комната не найдена")]) ∧
    handleSendMessage s roomId userId message now suffix =
      (s, [(Target.sender, SEvent.error "Комната не найдена")]) ∧
    handleGetMessages s roomId = (s, []) ∧
    handleGetRoomExpiration s roomId now = (s, []) := by
  refine ⟨?_, ?_, ?_, ?_⟩
  · unfold handleJoinRoom
    rw [habs]
  · unfold handleSendMessage
    rw [habs]
  · unfold handleGetMessages
    rw [habs]
  · unfold handleGetRoomExpiration
    rw [habs]

/-- Witness for the amended C9 on a concrete state. -/
theorem C9_unknown_room_witness :
    handleJoinRoom sampleState "QQ77" "u1" 3 =
      (sampleState, [(Target.sender, SEvent.error "Комната не найдена")]) ∧
    handleSendMessage sampleState "QQ77" "u1" "m" 3 "r2" =
      (sampleState, [(Target.sender, SEvent.error "Комната не найдена")]) ∧
    handleGetMessages sampleState "QQ77" = (sampleState, []) ∧
    handleGetRoomExpiration sampleState "QQ77" 3 = (sampleState, []) :=
  C9_unknown_room sampleState "QQ77" "u1" "m" 3 "r2" (by decide)

/-- Witness for C1 at a concrete reachable state (create `AB12` for
`u1`, `u2`, then `u3` joins, then `u1` sends a message). -/
theorem C1_membership_invariant_witness :
    MembershipInvariant
      (handleSendMessage
        (handleJoinRoom (handleCreateRoom initialState "AB12" ["u1", "u2"] 0).1
          "AB12" "u3" 5).1
        "AB12" "u1" "hi" 9 "k3j9q").1 :=
  C1_membership_invariant _
    (Reachable.sendStep _ "AB12" "u1" "hi" 9 "k3j9q"
      (Reachable.joinStep _ "AB12" "u3" 5
        (Reachable.createStep _ "AB12" ["u1", "u2"] 0 Reachable.init)))

end Zvon
